import Mathlib

/-!
Verification of the availability / slot-computation engine of the clinic
backend (`app/routers/availability.py`, `app/models.py`, `app/schemas.py`).

Shallow embedding conventions:

* A time-of-day (`datetime.time`) is a number of seconds since midnight,
  a `Nat` in `[0, 86400)`.  The Python `time` type guarantees this range;
  where a statement needs it we carry it as a hypothesis.
* A `datetime` instant is a number of seconds since an epoch taken at
  midnight of a Monday, so that `date.weekday()` (Monday = 0) of the day
  containing instant `t` is `t / 86400 % 7`, and a calendar date is the
  `Nat` day index `t / 86400`.  `datetime.combine(d, time.min)` is
  `d * 86400` and `datetime.combine(d, time.max)` is `d * 86400 + 86399`
  at the one-second resolution used here.
* The ambient clock (`date.today()`, `datetime.now().time()`) is passed
  explicitly as the day index `today` and the time-of-day `now_tod`.
* SQLAlchemy rows become structures; the database session becomes an
  explicit `Store` of row lists, in storage order.  `query(...).filter`
  is `List.filter`, `.first()` is `head?`, `ORDER BY` is `mergeSort`.
* Pydantic request models become structures; `day_of_week : Int` carries
  no range constraint, exactly as `schemas.DoctorAvailabilityCreate`
  declares a bare `int` field with no validator.
-/

namespace Clinic

/-- Row of `doctor_availability` (`models.DoctorAvailability`):
`id`, `doctor_id`, `day_of_week` (0 = Monday .. 6 = Sunday intended, not
constrained), `start_time`, `end_time` (times of day), `is_active`. -/
structure DoctorAvailability where
  id : Nat
  doctor_id : Nat
  day_of_week : Int
  start_time : Nat
  end_time : Nat
  is_active : Bool
deriving DecidableEq, Repr

/-- Request body element of `POST /availability/set`
(`schemas.DoctorAvailabilityCreate`): no `id` / `doctor_id`, and no
validation beyond the field types — in particular no range check on
`day_of_week` and no check that `start_time < end_time`. -/
structure DoctorAvailabilityCreate where
  day_of_week : Int
  start_time : Nat
  end_time : Nat
  is_active : Bool
deriving DecidableEq, Repr

/-- Row of `appointments` (`models.Appointment`), restricted to the
columns the availability engine reads.  `appointment_date` is an
instant; `status_id` semantics: 1 = pending, 2 = confirmed,
3 = completed, 4 = cancelled. -/
structure Appointment where
  id : Nat
  patient_id : Nat
  doctor_id : Nat
  status_id : Nat
  appointment_date : Nat
deriving DecidableEq, Repr

/-- Row of `blocked_time` (`models.BlockedTime`): exception intervals,
modelled but never read by the slot computation. -/
structure BlockedTime where
  id : Nat
  doctor_id : Nat
  start_datetime : Nat
  end_datetime : Nat
  reason : Option String
deriving DecidableEq, Repr

/-- Response element of `GET /availability/slots`
(`schemas.TimeSlot`): a formatted time string and a flag. -/
structure TimeSlot where
  time : String
  is_available : Bool
deriving DecidableEq, Repr

/-- The persisted state the availability engine touches: the three row
tables, each in storage order. -/
structure Store where
  availabilities : List DoctorAvailability
  appointments : List Appointment
  blocked_times : List BlockedTime
deriving DecidableEq, Repr

/-- Step A of `get_available_slots` (availability.py lines 95-99): the
first stored rule with the given doctor, the given day-of-week and
`is_active` true (`query(...).filter(...).first()`). -/
def findRule (db : Store) (doctor_id : Nat) (dow : Int) : Option DoctorAvailability :=
  (db.availabilities.filter fun a =>
    a.doctor_id == doctor_id && a.day_of_week == dow && a.is_active).head?

/-- Step B of `get_available_slots` (availability.py lines 104-115):
times of day of the doctor's appointments lying on the query date with
status pending (1) or confirmed (2).  `start_of_day`/`end_of_day` are
`datetime.combine(query_date, time.min / time.max)`. -/
def bookedTimes (db : Store) (doctor_id qdate : Nat) : List Nat :=
  let start_of_day := qdate * 86400
  let end_of_day := qdate * 86400 + 86399
  (db.appointments.filter fun ap =>
      ap.doctor_id == doctor_id
        && decide (start_of_day ≤ ap.appointment_date)
        && decide (ap.appointment_date ≤ end_of_day)
        && (ap.status_id == 1 || ap.status_id == 2)).map
    fun ap => ap.appointment_date % 86400

/-- The `is_taken` test of the slot loop (availability.py line 127):
hour and minute equality between a booked time of day and a candidate
slot time, seconds ignored. -/
def matchesHM (booked slot_time : Nat) : Bool :=
  booked / 3600 == slot_time / 3600 && booked % 3600 / 60 == slot_time % 3600 / 60

/-- Step C of `get_available_slots`, the generation loop (availability.py
lines 117-141): `while current_time < end_time`, drop the candidate when
`is_taken` (a booked time matches by hour and minute) or `is_past`
(query date is today and the candidate is before the current time),
advance by 30 minutes.  Returns the emitted slot start times as seconds
of day; the source wraps each in
`TimeSlot(time=strftime "%H:%M", is_available=True)`, applied pointwise
by `get_available_slots` below. -/
def slotLoop (booked : List Nat) (is_today : Bool) (now_tod : Nat)
    (current end_t : Nat) : List Nat :=
  if current < end_t then
    let slot_time := current
    let is_taken := booked.any fun b => matchesHM b slot_time
    let is_past := is_today && decide (slot_time < now_tod)
    let rest := slotLoop booked is_today now_tod (current + 1800) end_t
    if !is_taken && !is_past then slot_time :: rest else rest
  else []
termination_by end_t - current
decreasing_by omega

/-- `get_available_slots` (availability.py lines 83-143) at the level of
slot start times: day-of-week of the query date, rule lookup (empty
result when no active rule), booked-time collection, generation loop.
`today` and `now_tod` are the ambient `date.today()` and
`datetime.now().time()`. -/
def slotTimes (doctor_id qdate today now_tod : Nat) (db : Store) : List Nat :=
  let day_of_week : Int := (qdate % 7 : Nat)
  match findRule db doctor_id day_of_week with
  | none => []
  | some availability =>
      slotLoop (bookedTimes db doctor_id qdate) (qdate == today) now_tod
        availability.start_time availability.end_time

/-- Two-digit zero padding, as `strftime` produces for `%H` and `%M`. -/
def pad2 (n : Nat) : String :=
  if n < 10 then "0" ++ toString n else toString n

/-- `slot_time.strftime("%H:%M")` for a seconds-of-day value. -/
def fmtHM (t : Nat) : String :=
  pad2 (t / 3600) ++ ":" ++ pad2 (t % 3600 / 60)

/-- The full `GET /availability/slots` computation: each emitted slot
start time becomes `{time: "HH:MM", is_available: true}`
(availability.py lines 136-139). -/
def get_available_slots (doctor_id qdate today now_tod : Nat) (db : Store) :
    List TimeSlot :=
  (slotTimes doctor_id qdate today now_tod db).map fun t =>
    { time := fmtHM t, is_available := true }

/-- The insertion loop of `set_availability` (availability.py lines
66-73): one `DoctorAvailability` row per request element, in order,
`doctor_id` forced to the authenticated caller, primary keys assigned by
the database's id counter. -/
def buildRows (uid : Nat) : Nat → List DoctorAvailabilityCreate → List DoctorAvailability
  | _, [] => []
  | next_id, av :: rest =>
      { id := next_id, doctor_id := uid, day_of_week := av.day_of_week,
        start_time := av.start_time, end_time := av.end_time,
        is_active := av.is_active } :: buildRows uid (next_id + 1) rest

/-- `POST /availability/set` (`set_availability`, availability.py lines
51-78): delete every stored rule of the caller, insert one row per
request element with the caller's id, commit; returns the new store and
the rows handed back as the response (`new_schedule`).  `next_id` is the
database id counter: every existing row has a smaller id. -/
def set_availability (current_user_id : Nat)
    (availabilities : List DoctorAvailabilityCreate) (db : Store)
    (next_id : Nat) : Store × List DoctorAvailability :=
  let kept := db.availabilities.filter fun a => !(a.doctor_id == current_user_id)
  let new_schedule := buildRows current_user_id next_id availabilities
  ({ db with availabilities := kept ++ new_schedule }, new_schedule)

/-- `GET /availability/me` (`get_my_availability`, availability.py lines
31-42): the caller's stored rules ordered by `day_of_week`. -/
def get_my_availability (current_user_id : Nat) (db : Store) :
    List DoctorAvailability :=
  (db.availabilities.filter fun a => a.doctor_id == current_user_id).mergeSort
    fun a b => decide (a.day_of_week ≤ b.day_of_week)

/-- The request-body view of a stored rule: the fields of
`DoctorAvailabilityCreate` that `set_availability` copies into the row. -/
def DoctorAvailability.toBase (r : DoctorAvailability) : DoctorAvailabilityCreate :=
  { day_of_week := r.day_of_week, start_time := r.start_time,
    end_time := r.end_time, is_active := r.is_active }

/-- The unfiltered candidate grid of the generation loop: every 30
minutes from `current` up to but excluding `end_t`. -/
def candidateTimes (current end_t : Nat) : List Nat :=
  if current < end_t then current :: candidateTimes (current + 1800) end_t
  else []
termination_by end_t - current
decreasing_by omega

/-- Membership in the candidate grid: exactly the times from `cur` up to
(excluding) `end_t` at an exact multiple of 30 minutes from `cur`. -/
theorem mem_candidateTimes {c : Nat} : ∀ {cur e : Nat},
    c ∈ candidateTimes cur e ↔ cur ≤ c ∧ c < e ∧ (c - cur) % 1800 = 0 := by
  intro cur e
  induction cur, e using candidateTimes.induct with
  | case1 cur e h ih =>
    rw [candidateTimes, if_pos h]
    simp only [List.mem_cons, ih]
    omega
  | case2 cur e h =>
    rw [candidateTimes, if_neg h]
    simp only [List.not_mem_nil, false_iff]
    omega

/-- The candidate grid is strictly increasing. -/
theorem candidateTimes_pairwise : ∀ (cur e : Nat),
    (candidateTimes cur e).Pairwise (· < ·) := by
  intro cur e
  induction cur, e using candidateTimes.induct with
  | case1 cur e h ih =>
    rw [candidateTimes, if_pos h]
    refine List.Pairwise.cons ?_ ih
    intro t ht
    have := mem_candidateTimes.mp ht
    omega
  | case2 cur e h =>
    rw [candidateTimes, if_neg h]
    exact List.Pairwise.nil

/-- The generation loop is the candidate grid filtered by the `is_taken`
and `is_past` tests. -/
theorem slotLoop_eq_filter (booked : List Nat) (is_today : Bool) (now_tod : Nat) :
    ∀ (cur e : Nat), slotLoop booked is_today now_tod cur e =
      (candidateTimes cur e).filter fun c =>
        !(booked.any fun b => matchesHM b c) && !(is_today && decide (c < now_tod)) := by
  intro cur e
  induction cur, e using candidateTimes.induct with
  | case1 cur e h ih =>
    rw [slotLoop, candidateTimes, if_pos h, if_pos h, List.filter_cons]
    simp only [ih]
  | case2 cur e h =>
    rw [slotLoop, candidateTimes, if_neg h, if_neg h]
    exact (List.filter_nil _).symm

/-- When the rule lookup succeeds, `slotTimes` is the generation loop on
that rule's window. -/
theorem slotTimes_eq_loop {db : Store} {doctor_id qdate : Nat}
    {r : DoctorAvailability} (today now_tod : Nat)
    (hr : findRule db doctor_id ((qdate % 7 : Nat) : Int) = some r) :
    slotTimes doctor_id qdate today now_tod db =
      slotLoop (bookedTimes db doctor_id qdate) (qdate == today) now_tod
        r.start_time r.end_time := by
  simp only [slotTimes, hr]

/-- The `is_taken` test over the booked-times list, translated to an
existence statement about stored appointment rows. -/
theorem booked_any_iff (db : Store) (doctor_id qdate c : Nat) :
    ((bookedTimes db doctor_id qdate).any fun b => matchesHM b c) = true ↔
      ∃ ap ∈ db.appointments, ap.doctor_id = doctor_id
        ∧ qdate * 86400 ≤ ap.appointment_date
        ∧ ap.appointment_date ≤ qdate * 86400 + 86399
        ∧ (ap.status_id = 1 ∨ ap.status_id = 2)
        ∧ ap.appointment_date % 86400 / 3600 = c / 3600
        ∧ ap.appointment_date % 86400 % 3600 / 60 = c % 3600 / 60 := by
  simp only [bookedTimes, matchesHM, List.any_map, List.any_filter,
    List.any_eq_true, Function.comp, Bool.and_eq_true, beq_iff_eq,
    decide_eq_true_eq, Bool.or_eq_true]
  simp only [List.mem_map, List.mem_filter, Bool.and_eq_true, beq_iff_eq,
    decide_eq_true_eq, Bool.or_eq_true]
  constructor
  · rintro ⟨x, ⟨ap, ⟨hap, hpred⟩, hx⟩, hh, hm⟩
    obtain ⟨⟨⟨hd, h1⟩, h2⟩, hs⟩ := hpred
    subst hx
    exact ⟨ap, hap, hd, h1, h2, hs, hh, hm⟩
  · rintro ⟨ap, hap, hd, h1, h2, hs, hh, hm⟩
    exact ⟨ap.appointment_date % 86400, ⟨ap, ⟨hap, ⟨⟨hd, h1⟩, h2⟩, hs⟩, rfl⟩, hh, hm⟩

/-- Full membership characterization of the emitted slot times when the
rule lookup succeeds. -/
theorem mem_slotTimes_iff {db : Store} {doctor_id qdate : Nat}
    {r : DoctorAvailability} (today now_tod c : Nat)
    (hr : findRule db doctor_id ((qdate % 7 : Nat) : Int) = some r) :
    c ∈ slotTimes doctor_id qdate today now_tod db ↔
      (r.start_time ≤ c ∧ c < r.end_time ∧ (c - r.start_time) % 1800 = 0)
        ∧ ¬((bookedTimes db doctor_id qdate).any fun b => matchesHM b c) = true
        ∧ ¬(qdate = today ∧ c < now_tod) := by
  rw [slotTimes_eq_loop today now_tod hr, slotLoop_eq_filter,
    List.mem_filter, mem_candidateTimes]
  simp only [Bool.and_eq_true, Bool.not_eq_true', Bool.and_eq_false_iff,
    Bool.not_eq_false', beq_iff_eq, decide_eq_true_eq, Bool.not_eq_true]
  constructor
  · rintro ⟨hcand, htaken, hpast⟩
    refine ⟨hcand, by simp [htaken], ?_⟩
    rcases hpast with h | h
    · intro ⟨ht, hlt⟩; rw [ht] at h; simp at h
    · intro ⟨ht, hlt⟩; simp [decide_eq_true_eq] at h; omega
  · rintro ⟨hcand, htaken, hpast⟩
    refine ⟨hcand, by simp [htaken], ?_⟩
    by_cases ht : qdate = today
    · right
      simp only [decide_eq_false_iff_not]
      intro hlt
      exact hpast ⟨ht, hlt⟩
    · left
      simp [beq_iff_eq, ht]

/-- The rule lookup only returns stored rules that match the queried
doctor and day-of-week and are active. -/
theorem findRule_spec {db : Store} {doctor_id : Nat} {dow : Int}
    {r : DoctorAvailability} (hr : findRule db doctor_id dow = some r) :
    r ∈ db.availabilities ∧ r.doctor_id = doctor_id ∧ r.day_of_week = dow
      ∧ r.is_active = true := by
  rw [findRule] at hr
  obtain ⟨ys, hys⟩ := List.head?_eq_some_iff.mp hr
  have hmem : r ∈ (db.availabilities.filter fun a =>
      a.doctor_id == doctor_id && a.day_of_week == dow && a.is_active) := by
    rw [hys]; exact List.mem_cons_self r ys
  rw [List.mem_filter] at hmem
  obtain ⟨hin, hpred⟩ := hmem
  simp only [Bool.and_eq_true, beq_iff_eq] at hpred
  exact ⟨hin, hpred.1.1, hpred.1.2, hpred.2⟩

/-- The inserted rows of `set_availability` all carry the caller's id. -/
theorem buildRows_doctor_id (uid : Nat) (rules : List DoctorAvailabilityCreate) :
    ∀ (next_id : Nat) (r : DoctorAvailability),
      r ∈ buildRows uid next_id rules → r.doctor_id = uid := by
  induction rules with
  | nil => intro n r h; cases h
  | cons av rest ih =>
    intro n r h
    rcases List.mem_cons.mp h with h | h
    · rw [h]
    · exact ih (n + 1) r h

/-- The inserted rows of `set_availability` all get ids at or above the
id counter. -/
theorem buildRows_id_ge (uid : Nat) (rules : List DoctorAvailabilityCreate) :
    ∀ (next_id : Nat) (r : DoctorAvailability),
      r ∈ buildRows uid next_id rules → next_id ≤ r.id := by
  induction rules with
  | nil => intro n r h; cases h
  | cons av rest ih =>
    intro n r h
    rcases List.mem_cons.mp h with h | h
    · rw [h]
    · have := ih (n + 1) r h
      omega

/-- Reading back the inserted rows as request data returns the request
exactly, in order. -/
theorem buildRows_map_toBase (uid : Nat) (rules : List DoctorAvailabilityCreate) :
    ∀ (next_id : Nat),
      (buildRows uid next_id rules).map DoctorAvailability.toBase = rules := by
  induction rules with
  | nil => intro n; rfl
  | cons av rest ih =>
    intro n
    simp only [buildRows, List.map_cons, ih (n + 1), DoctorAvailability.toBase]

/-- After a replace, the caller's stored rules are exactly the inserted
rows. -/
theorem set_then_filter (uid next_id : Nat)
    (rules : List DoctorAvailabilityCreate) (db : Store) :
    ((set_availability uid rules db next_id).1.availabilities.filter
        fun a => a.doctor_id == uid)
      = buildRows uid next_id rules := by
  simp only [set_availability, List.filter_append, List.filter_filter]
  have h1 : (db.availabilities.filter fun a =>
      a.doctor_id == uid && !(a.doctor_id == uid)) = [] := by
    rw [List.filter_eq_nil_iff]
    intro a _
    cases h : a.doctor_id == uid <;> simp [h]
  have h2 : ((buildRows uid next_id rules).filter fun a => a.doctor_id == uid)
      = buildRows uid next_id rules := by
    rw [List.filter_eq_self]
    intro a ha
    simp [buildRows_doctor_id uid rules next_id a ha]
  rw [h1, h2, List.nil_append]

/-- A rule `Monday 09:00-11:00` for doctor 1 (seconds of day
32400-39600), as in the spec's worked scenario. -/
def mondayRule : DoctorAvailability :=
  { id := 1, doctor_id := 1, day_of_week := 0, start_time := 32400,
    end_time := 39600, is_active := true }

/-- Store holding only `mondayRule`: no appointments, no blocked time. -/
def mondayStore : Store :=
  { availabilities := [mondayRule], appointments := [], blocked_times := [] }

/-- `mondayStore` plus a confirmed 10:00 appointment on day 7 (the
Monday one week after the epoch). -/
def bookedStore : Store :=
  { availabilities := [mondayRule],
    appointments := [{ id := 1, patient_id := 1, doctor_id := 1, status_id := 2,
                       appointment_date := 7 * 86400 + 36000 }],
    blocked_times := [] }

/-- Claim C1: with an active weekly rule found for the query date's
day-of-week, every emitted slot is the formatted image of a time `t`
with `rule.start_time ≤ t < rule.end_time` and `t - rule.start_time` an
exact multiple of 30 minutes (1800 s), and the emitted times are in
strictly ascending chronological order. -/
theorem slots_within_rule_and_sorted
    (doctor_id qdate today now_tod : Nat) (db : Store) (r : DoctorAvailability)
    (hr : findRule db doctor_id ((qdate % 7 : Nat) : Int) = some r) :
    (∀ s ∈ get_available_slots doctor_id qdate today now_tod db,
        ∃ t ∈ slotTimes doctor_id qdate today now_tod db,
          s = { time := fmtHM t, is_available := true }
            ∧ r.start_time ≤ t ∧ t < r.end_time
            ∧ (t - r.start_time) % 1800 = 0)
      ∧ (slotTimes doctor_id qdate today now_tod db).Pairwise (· < ·) := by
  constructor
  · intro s hs
    rw [get_available_slots, List.mem_map] at hs
    obtain ⟨t, ht, hts⟩ := hs
    have hc := (mem_slotTimes_iff today now_tod t hr).mp ht
    exact ⟨t, ht, hts.symm, hc.1.1, hc.1.2.1, hc.1.2.2⟩
  · rw [slotTimes_eq_loop today now_tod hr, slotLoop_eq_filter]
    exact List.Pairwise.sublist (List.filter_sublist _) (candidateTimes_pairwise _ _)

/-- Witness for C1 on the worked scenario store. -/
theorem slots_within_rule_and_sorted_witness :
    findRule mondayStore 1 ((7 % 7 : Nat) : Int) = some mondayRule
      ∧ ((∀ s ∈ get_available_slots 1 7 0 0 mondayStore,
            ∃ t ∈ slotTimes 1 7 0 0 mondayStore,
              s = { time := fmtHM t, is_available := true }
                ∧ mondayRule.start_time ≤ t ∧ t < mondayRule.end_time
                ∧ (t - mondayRule.start_time) % 1800 = 0)
          ∧ (slotTimes 1 7 0 0 mondayStore).Pairwise (· < ·)) :=
  ⟨by decide, slots_within_rule_and_sorted 1 7 0 0 mondayStore mondayRule (by decide)⟩

/-- Claim C2 counterexample: on a query for the current date, the slot
09:00 (32400 s) is a 30-minute candidate of the active rule and no
appointment at all exists in the store, yet the candidate is omitted
(the same-day past filter at wall-clock 23:59:59 removes it), so
"omitted if and only if a pending/confirmed appointment matches" fails
in the only-if direction. -/
theorem slot_omitted_without_booking_cex :
    mondayRule.start_time ≤ 32400 ∧ 32400 < mondayRule.end_time
      ∧ (32400 - mondayRule.start_time) % 1800 = 0
      ∧ mondayStore.appointments = []
      ∧ 32400 ∉ slotTimes 1 0 0 86399 mondayStore
      ∧ ({ time := "09:00", is_available := true } : TimeSlot)
          ∉ get_available_slots 1 0 0 86399 mondayStore := by
  refine ⟨by decide, by decide, by decide, rfl, ?_, ?_⟩
  · have h : slotTimes 1 0 0 86399 mondayStore = [] := by
      simp +decide [slotTimes, findRule, bookedTimes, slotLoop, matchesHM,
        mondayStore, mondayRule]
    simp [h]
  · have h : slotTimes 1 0 0 86399 mondayStore = [] := by
      simp +decide [slotTimes, findRule, bookedTimes, slotLoop, matchesHM,
        mondayStore, mondayRule]
    simp [get_available_slots, h]

/-- Claim C2 (amended): for a 30-minute candidate of the found rule that
the same-day past filter does not suppress (the query date is not the
current date, or the candidate is not before the current time), the
candidate is omitted from the output if and only if some stored
appointment of the doctor on the query date with status pending (1) or
confirmed (2) has a time-of-day whose hour and minute equal the
candidate's, seconds ignored; appointments with other statuses
(completed, cancelled) never exclude a candidate. -/
theorem slot_omitted_iff_booked
    (doctor_id qdate today now_tod c : Nat) (db : Store) (r : DoctorAvailability)
    (hr : findRule db doctor_id ((qdate % 7 : Nat) : Int) = some r)
    (hcand : r.start_time ≤ c ∧ c < r.end_time ∧ (c - r.start_time) % 1800 = 0)
    (hpast : ¬(qdate = today ∧ c < now_tod)) :
    c ∉ slotTimes doctor_id qdate today now_tod db ↔
      ∃ ap ∈ db.appointments, ap.doctor_id = doctor_id
        ∧ qdate * 86400 ≤ ap.appointment_date
        ∧ ap.appointment_date ≤ qdate * 86400 + 86399
        ∧ (ap.status_id = 1 ∨ ap.status_id = 2)
        ∧ ap.appointment_date % 86400 / 3600 = c / 3600
        ∧ ap.appointment_date % 86400 % 3600 / 60 = c % 3600 / 60 := by
  have hiff := mem_slotTimes_iff today now_tod c hr
  rw [← booked_any_iff db doctor_id qdate c]
  constructor
  · intro hnot
    by_cases hany : ((bookedTimes db doctor_id qdate).any fun b => matchesHM b c) = true
    · exact hany
    · exact absurd (hiff.mpr ⟨hcand, hany, hpast⟩) hnot
  · intro hany hmem
    exact (hiff.mp hmem).2.1 hany

/-- Witness for the amended C2: doctor 1, query date 7 (not today), the
10:00 candidate against the confirmed 10:00 appointment of
`bookedStore`. -/
theorem slot_omitted_iff_booked_witness :
    findRule bookedStore 1 ((7 % 7 : Nat) : Int) = some mondayRule
      ∧ (mondayRule.start_time ≤ 36000 ∧ 36000 < mondayRule.end_time
          ∧ (36000 - mondayRule.start_time) % 1800 = 0)
      ∧ ¬((7 : Nat) = 0 ∧ (36000 : Nat) < 0)
      ∧ (36000 ∉ slotTimes 1 7 0 0 bookedStore ↔
          ∃ ap ∈ bookedStore.appointments, ap.doctor_id = 1
            ∧ 7 * 86400 ≤ ap.appointment_date
            ∧ ap.appointment_date ≤ 7 * 86400 + 86399
            ∧ (ap.status_id = 1 ∨ ap.status_id = 2)
            ∧ ap.appointment_date % 86400 / 3600 = 36000 / 3600
            ∧ ap.appointment_date % 86400 % 3600 / 60 = 36000 % 3600 / 60) :=
  ⟨by decide, by decide, by decide,
    slot_omitted_iff_booked 1 7 0 0 36000 bookedStore mondayRule (by decide)
      (by decide) (by decide)⟩

/-- Claim C3: replacing the schedule and immediately reading it back
yields exactly the given rules (as request data, up to the reordering)
sorted ascending by `day_of_week`, and no rule the doctor had before the
replacement remains stored.  `next_id` is the database id counter, so
every pre-existing row has a smaller id. -/
theorem set_then_get_exact
    (uid next_id : Nat) (rules : List DoctorAvailabilityCreate) (db : Store)
    (hfresh : ∀ r ∈ db.availabilities, r.id < next_id) :
    ((get_my_availability uid (set_availability uid rules db next_id).1).map
        DoctorAvailability.toBase).Perm rules
      ∧ (get_my_availability uid (set_availability uid rules db next_id).1).Pairwise
          (fun a b => a.day_of_week ≤ b.day_of_week)
      ∧ ∀ r ∈ db.availabilities, r.doctor_id = uid →
          r ∉ get_my_availability uid (set_availability uid rules db next_id).1 := by
  have hget : get_my_availability uid (set_availability uid rules db next_id).1
      = (buildRows uid next_id rules).mergeSort
          (fun a b => decide (a.day_of_week ≤ b.day_of_week)) := by
    rw [get_my_availability, set_then_filter]
  refine ⟨?_, ?_, ?_⟩
  · rw [hget]
    exact (((List.mergeSort_perm _ _)).map _).trans
      (by rw [buildRows_map_toBase])
  · rw [hget]
    have hs := @List.sorted_mergeSort DoctorAvailability
      (fun a b => decide (a.day_of_week ≤ b.day_of_week))
      (fun a b c hab hbc => by
        simp only [decide_eq_true_eq] at hab hbc ⊢
        exact le_trans hab hbc)
      (fun a b => by
        simp only [Bool.or_eq_true, decide_eq_true_eq]
        exact le_total a.day_of_week b.day_of_week)
      (buildRows uid next_id rules)
    exact hs.imp fun hab => of_decide_eq_true hab
  · intro r hr hruid hmem
    rw [hget, List.mem_mergeSort] at hmem
    have h1 := buildRows_id_ge uid rules next_id r hmem
    have h2 := hfresh r hr
    omega

/-- Witness for C3: one pre-existing rule (id 1) is replaced by a
two-rule schedule inserted at id counter 2. -/
theorem set_then_get_exact_witness :
    (∀ r ∈ mondayStore.availabilities, r.id < 2)
      ∧ (((get_my_availability 1 (set_availability 1
              [{ day_of_week := 3, start_time := 28800, end_time := 43200,
                 is_active := true },
               { day_of_week := 1, start_time := 32400, end_time := 39600,
                 is_active := true }] mondayStore 2).1).map
            DoctorAvailability.toBase).Perm
          [{ day_of_week := 3, start_time := 28800, end_time := 43200,
             is_active := true },
           { day_of_week := 1, start_time := 32400, end_time := 39600,
             is_active := true }]
        ∧ (get_my_availability 1 (set_availability 1
              [{ day_of_week := 3, start_time := 28800, end_time := 43200,
                 is_active := true },
               { day_of_week := 1, start_time := 32400, end_time := 39600,
                 is_active := true }] mondayStore 2).1).Pairwise
            (fun a b => a.day_of_week ≤ b.day_of_week)
        ∧ ∀ r ∈ mondayStore.availabilities, r.doctor_id = 1 →
            r ∉ get_my_availability 1 (set_availability 1
              [{ day_of_week := 3, start_time := 28800, end_time := 43200,
                 is_active := true },
               { day_of_week := 1, start_time := 32400, end_time := 39600,
                 is_active := true }] mondayStore 2).1) :=
  ⟨by decide,
    set_then_get_exact 1 2
      [{ day_of_week := 3, start_time := 28800, end_time := 43200,
         is_active := true },
       { day_of_week := 1, start_time := 32400, end_time := 39600,
         is_active := true }] mondayStore (by decide)⟩

/-- Claim C4: with only the Monday 09:00-11:00 rule and no appointments,
querying a future Monday (day 7, today being day 0) returns exactly the
four slots 09:00, 09:30, 10:00, 10:30 in that order; in particular
11:00 is not produced. -/
theorem monday_nine_to_eleven_four_slots :
    get_available_slots 1 7 0 0 mondayStore =
      [{ time := "09:00", is_available := true },
       { time := "09:30", is_available := true },
       { time := "10:00", is_available := true },
       { time := "10:30", is_available := true }] := by
  have h : slotTimes 1 7 0 0 mondayStore = [32400, 34200, 36000, 37800] := by
    simp +decide [slotTimes, findRule, bookedTimes, slotLoop, matchesHM,
      mondayStore, mondayRule]
  rw [get_available_slots, h]
  decide

/-- `mondayStore` with every 30-minute candidate of the Monday rule
booked on day 7: 09:00 and 10:00 confirmed (status 2), 09:30 and 10:30
pending (status 1). -/
def fullyBookedStore : Store :=
  { availabilities := [mondayRule],
    appointments :=
      [{ id := 1, patient_id := 1, doctor_id := 1, status_id := 2,
         appointment_date := 7 * 86400 + 32400 },
       { id := 2, patient_id := 2, doctor_id := 1, status_id := 1,
         appointment_date := 7 * 86400 + 34200 },
       { id := 3, patient_id := 3, doctor_id := 1, status_id := 2,
         appointment_date := 7 * 86400 + 36000 },
       { id := 4, patient_id := 4, doctor_id := 1, status_id := 1,
         appointment_date := 7 * 86400 + 37800 }],
    blocked_times := [] }

/-- Claim C5: the slot computation is a total function whose empty
results are normal outcomes, not exceptions.  When no stored rule for
the doctor and the query date's day-of-week is active it returns the
empty list, and when an active rule is found but the day is fully
booked — every 30-minute candidate of the rule's window matches a
pending/confirmed appointment by hour and minute — it also returns the
empty list. -/
theorem no_rule_or_fully_booked_empty_slots
    (doctor_id qdate today now_tod : Nat) (db : Store) :
    ((∀ a ∈ db.availabilities, a.doctor_id = doctor_id →
          a.day_of_week = ((qdate % 7 : Nat) : Int) → a.is_active = false) →
        get_available_slots doctor_id qdate today now_tod db = []
          ∧ slotTimes doctor_id qdate today now_tod db = [])
      ∧ (∀ r, findRule db doctor_id ((qdate % 7 : Nat) : Int) = some r →
          (∀ c ∈ candidateTimes r.start_time r.end_time,
            ((bookedTimes db doctor_id qdate).any fun b => matchesHM b c) = true) →
          get_available_slots doctor_id qdate today now_tod db = []
            ∧ slotTimes doctor_id qdate today now_tod db = []) := by
  constructor
  · intro h
    have hr : findRule db doctor_id ((qdate % 7 : Nat) : Int) = none := by
      rw [findRule, List.head?_eq_none_iff, List.filter_eq_nil_iff]
      intro a ha hpred
      simp only [Bool.and_eq_true, beq_iff_eq] at hpred
      obtain ⟨⟨hd, hw⟩, hact⟩ := hpred
      rw [h a ha hd hw] at hact
      cases hact
    have ht : slotTimes doctor_id qdate today now_tod db = [] := by
      simp only [slotTimes, hr]
    exact ⟨by rw [get_available_slots, ht]; rfl, ht⟩
  · intro r hr hfull
    have ht : slotTimes doctor_id qdate today now_tod db = [] := by
      rw [slotTimes_eq_loop today now_tod hr, slotLoop_eq_filter,
        List.filter_eq_nil_iff]
      intro c hc
      rw [hfull c hc]
      simp
    exact ⟨by rw [get_available_slots, ht]; rfl, ht⟩

/-- Witness for C5: doctor 2 has no rule at all in `mondayStore`, and in
`fullyBookedStore` every Monday candidate is booked, so both queries
return the empty list. -/
theorem no_rule_or_fully_booked_empty_slots_witness :
    ((∀ a ∈ mondayStore.availabilities, a.doctor_id = 2 →
          a.day_of_week = ((3 % 7 : Nat) : Int) → a.is_active = false)
        ∧ get_available_slots 2 3 0 0 mondayStore = []
        ∧ slotTimes 2 3 0 0 mondayStore = [])
      ∧ (findRule fullyBookedStore 1 ((7 % 7 : Nat) : Int) = some mondayRule
        ∧ (∀ c ∈ candidateTimes mondayRule.start_time mondayRule.end_time,
            ((bookedTimes fullyBookedStore 1 7).any fun b => matchesHM b c) = true)
        ∧ get_available_slots 1 7 0 0 fullyBookedStore = []
        ∧ slotTimes 1 7 0 0 fullyBookedStore = []) := by
  constructor
  · exact ⟨by decide,
      (no_rule_or_fully_booked_empty_slots 2 3 0 0 mondayStore).1 (by decide)⟩
  · have hfull : ∀ c ∈ candidateTimes mondayRule.start_time mondayRule.end_time,
        ((bookedTimes fullyBookedStore 1 7).any fun b => matchesHM b c) = true := by
      have hc : candidateTimes mondayRule.start_time mondayRule.end_time
          = [32400, 34200, 36000, 37800] := by
        simp +decide [candidateTimes, mondayRule]
      rw [hc]
      decide
    refine ⟨by decide, hfull, ?_, ?_⟩
    · exact ((no_rule_or_fully_booked_empty_slots 1 7 0 0 fullyBookedStore).2
        mondayRule (by decide) hfull).1
    · exact ((no_rule_or_fully_booked_empty_slots 1 7 0 0 fullyBookedStore).2
        mondayRule (by decide) hfull).2

/-- Claim C6: when the query date is the current date, every emitted
slot time is at or after the current wall-clock time of day; when the
query date is any other date (past or future), the output is the
candidate grid filtered by the booking test alone — no candidate is
omitted for being in the past. -/
theorem past_filter_only_today
    (doctor_id qdate today now_tod : Nat) (db : Store) :
    (qdate = today →
        ∀ t ∈ slotTimes doctor_id qdate today now_tod db, now_tod ≤ t)
      ∧ (qdate ≠ today →
          ∀ r, findRule db doctor_id ((qdate % 7 : Nat) : Int) = some r →
            slotTimes doctor_id qdate today now_tod db =
              (candidateTimes r.start_time r.end_time).filter
                fun c => !((bookedTimes db doctor_id qdate).any
                  fun b => matchesHM b c)) := by
  constructor
  · intro hq t ht
    rcases hfr : findRule db doctor_id ((qdate % 7 : Nat) : Int) with _ | r
    · simp only [slotTimes, hfr] at ht
      cases ht
    · have hc := (mem_slotTimes_iff today now_tod t hfr).mp ht
      have hnp := hc.2.2
      by_contra hlt
      exact hnp ⟨hq, by omega⟩
  · intro hq r hr
    rw [slotTimes_eq_loop today now_tod hr, slotLoop_eq_filter]
    have hne : (qdate == today) = false := by
      simp only [beq_eq_false_iff_ne, ne_eq]
      exact hq
    simp only [hne, Bool.false_and, Bool.not_false, Bool.and_true]

/-- Witness for C6: part one on a same-day query at 08:20 (the 10:00
slot is at or after it), part two on the future-Monday query. -/
theorem past_filter_only_today_witness :
    ((30000 : Nat) ≤ 36000)
      ∧ slotTimes 1 7 0 30000 mondayStore =
          (candidateTimes mondayRule.start_time mondayRule.end_time).filter
            fun c => !((bookedTimes mondayStore 1 7).any fun b => matchesHM b c) := by
  constructor
  · refine (past_filter_only_today 1 0 0 30000 mondayStore).1 rfl 36000 ?_
    simp +decide [slotTimes, findRule, bookedTimes, slotLoop, matchesHM,
      mondayStore, mondayRule]
  · exact (past_filter_only_today 1 7 0 30000 mondayStore).2 (by decide)
      mondayRule (by decide)

/-- Claim C7: the slot computation never reads the blocked-time table —
two stores with identical weekly rules and appointments but arbitrary,
different `BlockedTime` rows produce identical slot lists. -/
theorem slots_independent_of_blocked_time
    (doctor_id qdate today now_tod : Nat) (s1 s2 : Store)
    (ha : s1.availabilities = s2.availabilities)
    (hap : s1.appointments = s2.appointments) :
    get_available_slots doctor_id qdate today now_tod s1 =
      get_available_slots doctor_id qdate today now_tod s2 := by
  simp only [get_available_slots, slotTimes, findRule, bookedTimes, ha, hap]

/-- Store identical to `mondayStore` except for a blocked-time row that
covers the whole queried Monday. -/
def vacationStore : Store :=
  { mondayStore with
    blocked_times := [{ id := 1, doctor_id := 1, start_datetime := 7 * 86400,
                        end_datetime := 8 * 86400, reason := some "Vacaciones" }] }

/-- Witness for C7: the all-day block on day 7 changes nothing in the
slot output for day 7. -/
theorem slots_independent_of_blocked_time_witness :
    mondayStore.availabilities = vacationStore.availabilities
      ∧ mondayStore.appointments = vacationStore.appointments
      ∧ mondayStore.blocked_times ≠ vacationStore.blocked_times
      ∧ get_available_slots 1 7 0 0 mondayStore =
          get_available_slots 1 7 0 0 vacationStore :=
  ⟨rfl, rfl, by decide,
    slots_independent_of_blocked_time 1 7 0 0 mondayStore vacationStore rfl rfl⟩

/-- A schedule-request rule whose `day_of_week` (7) lies outside
`[0, 6]`. -/
def badDayRule : DoctorAvailabilityCreate :=
  { day_of_week := 7, start_time := 32400, end_time := 39600,
    is_active := true }

/-- Claim C8 counterexample: `set_availability` applied to a rule with
`day_of_week = 7` stores that rule (the resulting store contains it and
the operation returns it as accepted) — there is no boundary rejection,
contradicting "rejected with an error before any rule is stored". -/
theorem out_of_range_day_stored_cex :
    ((set_availability 1 [badDayRule]
        { availabilities := [], appointments := [], blocked_times := [] }
        1).1.availabilities.map DoctorAvailability.toBase) = [badDayRule]
      ∧ ((set_availability 1 [badDayRule]
          { availabilities := [], appointments := [], blocked_times := [] }
          1).2.map DoctorAvailability.toBase) = [badDayRule]
      ∧ ¬(0 ≤ badDayRule.day_of_week ∧ badDayRule.day_of_week ≤ 6) := by
  decide

/-- Claim C8 (amended): `set_availability` performs no validation of
`day_of_week` — every input list is stored as given without error — but
a rule whose `day_of_week` lies outside `[0, 6]` can never be selected
by the slot computation, because the day-of-week of any query date lies
in `[0, 6]`. -/
theorem day_of_week_unvalidated_never_selected
    (uid next_id : Nat) (rules : List DoctorAvailabilityCreate) (db : Store) :
    ((set_availability uid rules db next_id).2.map DoctorAvailability.toBase
        = rules)
      ∧ ∀ (db2 : Store) (doctor_id qdate : Nat) (r : DoctorAvailability),
          findRule db2 doctor_id ((qdate % 7 : Nat) : Int) = some r →
          0 ≤ r.day_of_week ∧ r.day_of_week ≤ 6 := by
  constructor
  · exact buildRows_map_toBase uid rules next_id
  · intro db2 d q r hr
    have hw := (findRule_spec hr).2.2.1
    have hq : q % 7 < 7 := Nat.mod_lt _ (by omega)
    omega

/-- Witness for the amended C8: `badDayRule` is stored as given, and the
rule the slot query selects in `mondayStore` has its day in range. -/
theorem day_of_week_unvalidated_never_selected_witness :
    ((set_availability 1 [badDayRule]
        { availabilities := [], appointments := [], blocked_times := [] }
        1).2.map DoctorAvailability.toBase = [badDayRule])
      ∧ (0 ≤ mondayRule.day_of_week ∧ mondayRule.day_of_week ≤ 6) :=
  ⟨(day_of_week_unvalidated_never_selected 1 1 [badDayRule]
      { availabilities := [], appointments := [], blocked_times := [] }).1,
    (day_of_week_unvalidated_never_selected 1 1 [badDayRule]
      { availabilities := [], appointments := [], blocked_times := [] }).2
      mondayStore 1 7 mondayRule (by decide)⟩

/-- Claim C9: the schedule replacement never compares `start_time` with
`end_time` — any list of rules, including ones with
`start_time ≥ end_time`, is stored without error — and a day governed by
such a degenerate rule yields zero slots (the candidate range is empty)
rather than a failure. -/
theorem degenerate_rule_accepted_and_zero_slots
    (uid next_id : Nat) (rules : List DoctorAvailabilityCreate) (db : Store)
    (doctor_id qdate today now_tod : Nat) (r : DoctorAvailability)
    (hr : findRule db doctor_id ((qdate % 7 : Nat) : Int) = some r)
    (hdeg : r.end_time ≤ r.start_time) :
    ((set_availability uid rules db next_id).2.map DoctorAvailability.toBase
        = rules)
      ∧ slotTimes doctor_id qdate today now_tod db = []
      ∧ get_available_slots doctor_id qdate today now_tod db = [] := by
  have ht : slotTimes doctor_id qdate today now_tod db = [] := by
    rw [slotTimes_eq_loop today now_tod hr, slotLoop, if_neg (by omega)]
  exact ⟨buildRows_map_toBase uid rules next_id, ht,
    by rw [get_available_slots, ht]; rfl⟩

/-- Store holding a degenerate Monday rule with
`start_time = end_time = 09:00` for doctor 1. -/
def degenerateStore : Store :=
  { availabilities := [{ id := 1, doctor_id := 1, day_of_week := 0,
                         start_time := 32400, end_time := 32400,
                         is_active := true }],
    appointments := [], blocked_times := [] }

/-- Witness for C9 on the degenerate 09:00-09:00 Monday rule. -/
theorem degenerate_rule_accepted_and_zero_slots_witness :
    findRule degenerateStore 1 ((7 % 7 : Nat) : Int) =
        some { id := 1, doctor_id := 1, day_of_week := 0, start_time := 32400,
               end_time := 32400, is_active := true }
      ∧ ((set_availability 1 [badDayRule] degenerateStore
            2).2.map DoctorAvailability.toBase = [badDayRule])
      ∧ slotTimes 1 7 0 0 degenerateStore = []
      ∧ get_available_slots 1 7 0 0 degenerateStore = [] :=
  ⟨by decide,
    (degenerate_rule_accepted_and_zero_slots 1 2 [badDayRule]
        degenerateStore 1 7 0 0
        { id := 1, doctor_id := 1, day_of_week := 0, start_time := 32400,
          end_time := 32400, is_active := true }
        (by decide) (by decide)).1,
    (degenerate_rule_accepted_and_zero_slots 1 2 [badDayRule]
        degenerateStore 1 7 0 0
        { id := 1, doctor_id := 1, day_of_week := 0, start_time := 32400,
          end_time := 32400, is_active := true }
        (by decide) (by decide)).2.1,
    (degenerate_rule_accepted_and_zero_slots 1 2 [badDayRule]
        degenerateStore 1 7 0 0
        { id := 1, doctor_id := 1, day_of_week := 0, start_time := 32400,
          end_time := 32400, is_active := true }
        (by decide) (by decide)).2.2⟩

/-- Claim C10: the schedule replacement only touches the caller's weekly
rules — appointments and blocked times are untouched, the stored rules
of every other doctor are unchanged, and every inserted rule carries the
caller's id as `doctor_id`. -/
theorem set_availability_frame
    (uid next_id : Nat) (rules : List DoctorAvailabilityCreate) (db : Store) :
    ((set_availability uid rules db next_id).1.appointments = db.appointments)
      ∧ ((set_availability uid rules db next_id).1.blocked_times
          = db.blocked_times)
      ∧ ((set_availability uid rules db next_id).1.availabilities.filter
            (fun a => !(a.doctor_id == uid))
          = db.availabilities.filter fun a => !(a.doctor_id == uid))
      ∧ ∀ r ∈ (set_availability uid rules db next_id).2, r.doctor_id = uid := by
  refine ⟨rfl, rfl, ?_, ?_⟩
  · simp only [set_availability, List.filter_append, List.filter_filter]
    have h1 : ((buildRows uid next_id rules).filter
        fun a => !(a.doctor_id == uid)) = [] := by
      rw [List.filter_eq_nil_iff]
      intro a ha
      simp [buildRows_doctor_id uid rules next_id a ha]
    rw [h1, List.append_nil]
    congr 1
    funext a
    exact Bool.and_self _
  · intro r hmem
    exact buildRows_doctor_id uid rules next_id r hmem

/-- Witness for C10: a replacement by doctor 1 leaves doctor 2's rule in
place and inserts rows owned by doctor 1. -/
theorem set_availability_frame_witness :
    ((set_availability 1
        [{ day_of_week := 2, start_time := 28800, end_time := 43200,
           is_active := true }]
        { availabilities := [{ id := 1, doctor_id := 2, day_of_week := 4,
                               start_time := 30000, end_time := 40000,
                               is_active := true }],
          appointments := [], blocked_times := [] } 2).1.availabilities.filter
          (fun a => !(a.doctor_id == 1))
        = [{ id := 1, doctor_id := 2, day_of_week := 4, start_time := 30000,
             end_time := 40000, is_active := true }])
      ∧ ({ id := 2, doctor_id := 1, day_of_week := 2, start_time := 28800,
           end_time := 43200, is_active := true } : DoctorAvailability).doctor_id
          = 1 := by
  constructor
  · exact (set_availability_frame 1 2
      [{ day_of_week := 2, start_time := 28800, end_time := 43200,
         is_active := true }]
      { availabilities := [{ id := 1, doctor_id := 2, day_of_week := 4,
                             start_time := 30000, end_time := 40000,
                             is_active := true }],
        appointments := [], blocked_times := [] }).2.2.1.trans (by decide)
  · exact (set_availability_frame 1 2
      [{ day_of_week := 2, start_time := 28800, end_time := 43200,
         is_active := true }]
      { availabilities := [{ id := 1, doctor_id := 2, day_of_week := 4,
                             start_time := 30000, end_time := 40000,
                             is_active := true }],
        appointments := [], blocked_times := [] }).2.2.2
      { id := 2, doctor_id := 1, day_of_week := 2, start_time := 28800,
        end_time := 43200, is_active := true } (by decide)

end Clinic
